import Mathlib

/-!
Verification development for the `udacity-tp1` private-blockchain repository.

The repository holds two variants of `blockchain.js` (the named file
`src/blockchain.js`, embedded here with the suffix `Src`, and an unnamed
variant, embedded with the suffix `Part`).  Both variants share the same
`_addBlock` and `validateChain` code; they differ in `submitStar` and in
`getStarsByWalletAddress`, so those are embedded twice.

The `Block` class lives in `block.js`, which is not part of the source tree;
its constructor, `validate()` and `getBData()` are modelled from the spec
(sections 3, 4.2, 4.5 and 6) and are marked as such below.
-/

set_option maxRecDepth 100000

namespace UdacityTp1

/-- Modelled from the spec (section 6, payload codec): the decoded form of a
block body, an owner address (absent for the genesis body) plus the opaque
payload content.  The codec itself is out of scope, so blocks carry the
decoded form directly and `getBData` is the identity on it. -/
structure BData where
  address : Option String
  content : String
deriving DecidableEq, Repr

/-- The block record: `height`, timestamp string `time`, body, link to the
predecessor (`null` is `none`) and the cached own hash (`null`/unset is
`none`).  Field set and order follow the spec data model (section 3). -/
structure Block where
  hash : Option String
  height : Int
  body : BData
  time : String
  previousBlockHash : Option String
deriving DecidableEq, Repr

/-- JS `null` (or an `Option.none` field) prints as the string `null` when
concatenated; a present string prints as itself. -/
def showOpt : Option String → String
  | none => "null"
  | some s => s

/-- Modelled from the spec (section 4.2): the canonical deterministic
serialization of a block that feeds the digest.  The exact
`JSON.stringify` field layout is fixed by `block.js`, which is not under
`src/`; the spec only requires a stable field order and deterministic
encoding, which this serialization provides.  The `hash` slot is
serialized with the block's current `hash` field, exactly as
`JSON.stringify(block)` does in `_addBlock`. -/
def serializeBData (d : BData) : String :=
  "addr:" ++ showOpt d.address ++ ";data:" ++ d.content

def serializeBlock (b : Block) : String :=
  "hash:" ++ showOpt b.hash ++ ";height:" ++ toString b.height ++
  ";body:" ++ serializeBData b.body ++ ";time:" ++ b.time ++
  ";prev:" ++ showOpt b.previousBlockHash

/-- Stand-in for the external `crypto-js` SHA-256 digest: a fixed,
deterministic, executable digest of the serialized block.  The claims under
verification need determinism and dependence on the serialized fields, not
collision resistance, so a rolling hash over the characters suffices. -/
def SHA256String (s : String) : String :=
  "h" ++ toString (s.toList.foldl (fun a c => (a * 131 + c.toNat) % 2305843009213693951) 7)

/-- Modelled from the spec (section 4.2, `recompute_hash`): serialize the
block with the `hash` slot cleared (the hash field is never part of its own
input) and apply the digest. -/
def recomputeHash (b : Block) : String :=
  SHA256String (serializeBlock { b with hash := none })

/-- Modelled from the spec (section 4.5): `Block.validate()` from the
missing `block.js` recomputes the digest over the block's fields excluding
`hash` and compares it with the stored `hash`. -/
def Block.validate (b : Block) : Bool :=
  b.hash == some (recomputeHash b)

/-- Modelled from the spec (section 3): a freshly constructed block before
append; `hash` is computed only at append time, so it is unset (`null`),
and the append-time fields hold constructor defaults that `_addBlock`
overwrites. -/
def newBlock (d : BData) : Block :=
  { hash := none, height := 0, body := d, time := "0", previousBlockHash := none }

/-- The store state: the `this.chain` array and the cached `this.height`. -/
structure ChainState where
  chain : List Block
  height : Int
deriving DecidableEq, Repr

/-- The expression `self.chain[self.chain.length-1].hash`: the hash of the current tail.
On an empty chain the JS expression would fault; that state is unreachable
whenever `height` is not `-1`, and the `none` default here is never used on
a program path. -/
def tailHash : List Block → Option String
  | [] => none
  | [b] => b.hash
  | _ :: r => tailHash r

/-- The method `_addBlock(block)` from both `blockchain.js` variants: stamp height,
timestamp (`tNow`, the sliced `Date.getTime` string) and the predecessor
link, then compute the hash of the whole serialized block (whose `hash`
slot still holds its pre-append value) and push.  Returns the new state and
the appended (mutated) block. -/
def addBlock (st : ChainState) (b : Block) (tNow : String) : ChainState × Block :=
  let b1 : Block :=
    { b with
      height := st.height + 1,
      time := tNow,
      previousBlockHash := if st.height = -1 then none else tailHash st.chain }
  let b2 : Block := { b1 with hash := some (SHA256String (serializeBlock b1)) }
  (⟨st.chain ++ [b2], st.height + 1⟩, b2)

/-- The constructor state before `initializeChain` runs: empty chain,
height `-1`. -/
def emptyState : ChainState := ⟨[], -1⟩

/-- The genesis body `\x7bdata: 'Genesis Block'\x7d`, owner-less. -/
def genesisBData : BData := ⟨none, "Genesis Block"⟩

/-- A store built the only way the program builds one: construction
synthesizes the genesis block, then each element of `appends` is one
`_addBlock` call with the given body and append-time timestamp. -/
def mkBlockchain (tGen : String) (appends : List (BData × String)) : ChainState :=
  appends.foldl (fun st p => (addBlock st (newBlock p.1) p.2).1)
    (addBlock emptyState (newBlock genesisBData) tGen).1

/-! ### The `validateChain` walk (identical in both variants) -/

/-- The running `previous_Block_Hash` variable: it starts as the number
`0` and afterwards holds a block's `hash` field (a string or `null`). -/
inductive PrevT where
  | init
  | ofHash (h : Option String)
deriving DecidableEq, Repr

/-- JS whitespace, as skipped by `parseInt` and string-to-number
conversion: space, tab, and the line-break controls. -/
def isSpaceCh (c : Char) : Bool :=
  c.toNat = 32 || (9 ≤ c.toNat && c.toNat ≤ 13)

/-- JS loose equality of a string with the number `0` (`s == 0`): true when
the trimmed string is empty or denotes the number zero.  For the values
compared here (hex-style digests and tamper strings) the relevant zero
spellings are the empty and all-zero-digit strings. -/
def jsStrEqZero (s : String) : Bool :=
  let t := (s.toList.dropWhile isSpaceCh).reverse.dropWhile isSpaceCh
  t.isEmpty || t.all (fun c => c = '0')

/-- JS loose equality `block.previousBlockHash == previous_Block_Hash`:
`null == 0` is false, `null == null` is true, strings compare as strings,
and a string loosely equals the number `0` per `jsStrEqZero`. -/
def prevEq (x : Option String) : PrevT → Bool
  | .init => match x with
    | none => false
    | some s => jsStrEqZero s
  | .ofHash none => x == none
  | .ofHash (some h) => x == some h

/-- Rendering of `previous_Block_Hash` inside a concatenated message. -/
def showPrevT : PrevT → String
  | .init => "0"
  | .ofHash h => showOpt h

def msgBlockErr (h : Int) : String :=
  "<br><hr>Il y a une erreur sur le block " ++ toString h

def msgLinkErr (p : PrevT) (x : Option String) : String :=
  "<br>Les hash ne coresspondent pas, la chaine est brisé, previous bloc hash: " ++
  showPrevT p ++ "  présent hash = " ++ showOpt x

/-- Outcome of the `forEach` walk inside `validateChain`.  `ChainIsValid`
is declared `const`, so the assignment `ChainIsValid = false` that follows
every `errorLog.push` throws a `TypeError`; `constThrow` records the
`errorLog` contents at the moment the walk aborts. -/
inductive WalkResult where
  | completed (errorLog : List String)
  | constThrow (errorLog : List String)
deriving DecidableEq, Repr

/-- One pass of the `validateChain` loop body per block: reset the tracked
hash on a height-0 block, run `block.validate()`, then the link check, each
error site pushing its message and then throwing on the `const`
reassignment. -/
def walkAux (p : PrevT) (acc : List String) : List Block → WalkResult
  | [] => .completed acc
  | b :: rest =>
    let p1 := if b.height = 0 then PrevT.ofHash b.hash else p
    if b.validate = false then
      .constThrow (acc ++ [msgBlockErr b.height])
    else if b.height = 0 then
      walkAux (.ofHash b.hash) acc rest
    else if prevEq b.previousBlockHash p1 then
      walkAux (.ofHash b.hash) acc rest
    else
      .constThrow (acc ++ [msgLinkErr p1 b.previousBlockHash])

/-- Settled behaviour of the promise `validateChain()` returns.  When the
walk completes, no push (hence no throw) ever happened, `ChainIsValid` is
still `true` and the promise resolves `true`.  When the walk throws, the
exception escapes the `async` promise executor, so the promise never
settles; the error log it had accumulated is unobservable. -/
inductive ValidateOutcome where
  | resolvesTrue
  | neverSettles (internalLog : List String)
deriving DecidableEq, Repr

def validateChainOutcome (chain : List Block) : ValidateOutcome :=
  match walkAux .init [] chain with
  | .completed _ => .resolvesTrue
  | .constThrow l => .neverSettles l

/-! ### Well-formedness of chains built by `_addBlock` -/

/-- Well-formedness `chainRec ph n l`: from expected predecessor hash `ph` and expected
height `n`, every block of `l` links to its predecessor, has the expected
sequential height, and stores the recomputable digest. -/
def chainRec (ph : Option String) (n : Int) : List Block → Prop
  | [] => True
  | b :: r =>
    b.previousBlockHash = ph ∧ b.height = n ∧
    b.hash = some (recomputeHash b) ∧ chainRec b.hash (n + 1) r

/-- Reachable-state invariant: the chain starts at a height-0 genesis with
a `null` predecessor and owner-less body, is well-formed from there, and
the cached height mirrors the length. -/
def Inv (st : ChainState) : Prop :=
  ∃ g rest, st.chain = g :: rest ∧ g.body.address = none ∧
    g.previousBlockHash = none ∧
    chainRec none 0 st.chain ∧
    st.height = (st.chain.length : Int) - 1


/-- Expected hash of the last block of `l`, seen from expected predecessor
hash `ph`: the parameter threaded by `chainRec` past `l`. -/
def lastHash (ph : Option String) : List Block → Option String
  | [] => ph
  | b :: r => lastHash b.hash r

/-! ### Concrete fixtures for counterexamples and witnesses -/

/-- A store holding only the genesis block (genesis timestamp `100`). -/
def stGenesis : ChainState := mkBlockchain "100" []

/-- A two-block store built by the program: genesis plus one star. -/
def stTwo : ChainState := mkBlockchain "100" [(⟨some "a", "s1"⟩, "200")]

/-- Corruption of the second block: its `previousBlockHash` is overwritten
with a value that no longer matches the first block's hash. -/
def breakSecond (st : ChainState) : ChainState :=
  { st with
    chain :=
      match st.chain with
      | a :: b :: r => a :: { b with previousBlockHash := some "beef" } :: r
      | l => l }

/-- A tampered store: `stTwo` with the second block's link corrupted. -/
def stBroken : ChainState := breakSecond stTwo

/-- A height-0 (genesis-position) block whose decoded owner is `a`: the
shape the claim about `getStarsByWalletAddress` quantifies over with
"regardless of its owner field". -/
def gOwned : Block :=
  { hash := some "h1", height := 0, body := ⟨some "a", "g"⟩, time := "100",
    previousBlockHash := none }

/-! ### `submitStar`: the two variants -/

def isDigitCh (c : Char) : Bool := 48 ≤ c.toNat && c.toNat ≤ 57

def isHexDigitCh (c : Char) : Bool :=
  isDigitCh c || (97 ≤ c.toNat && c.toNat ≤ 102) || (65 ≤ c.toNat && c.toNat ≤ 70)

def hexVal (c : Char) : Nat :=
  if isDigitCh c then c.toNat - 48
  else if 97 ≤ c.toNat then c.toNat - 87
  else c.toNat - 55

/-- JS `parseInt(s)`: skip leading whitespace, take an optional sign, then
either a `0x`/`0X` hexadecimal prefix or decimal digits, reading the
longest valid digit prefix; no digits means `NaN`, modelled as `none`. -/
def parseIntChars (cs0 : List Char) : Option Int :=
  let cs := cs0.dropWhile isSpaceCh
  let signed : Int × List Char :=
    match cs with
    | c :: rest =>
      if c = '-' then (-1, rest) else if c = '+' then (1, rest) else (1, cs)
    | [] => (1, [])
  let readWith (base : Nat) (valid : Char → Bool) (l : List Char) : Option Nat :=
    let ds := l.takeWhile valid
    if ds.isEmpty then none
    else some (ds.foldl (fun a c => a * base + hexVal c) 0)
  let mag : Option Nat :=
    match signed.2 with
    | c0 :: c1 :: rest =>
      if c0 = '0' && (c1 = 'x' || c1 = 'X') then readWith 16 isHexDigitCh rest
      else readWith 10 isDigitCh signed.2
    | l => readWith 10 isDigitCh l
  mag.map (fun n => signed.1 * (n : Int))

def parseIntJS (s : String) : Option Int :=
  parseIntChars s.toList

/-- JS `String.prototype.split(sep)` over the character list: splitting
always yields at least one (possibly empty) field. -/
def splitChars (sep : Char) : List Char → List (List Char)
  | [] => [[]]
  | c :: r =>
    match splitChars sep r with
    | [] => [[]]
    | g :: gs => if c = sep then [] :: g :: gs else (c :: g) :: gs

/-- Parsing `parseInt(message.split(':')[1])`: a missing second field is JS
`undefined`, and `parseInt(undefined)` is `NaN` (`none`). -/
def parseMsgTime (message : String) : Option Int :=
  match (splitChars ':' message.toList).get? 1 with
  | some f => parseIntChars f
  | none => none

/-- Behaviour of the external `bitcoinjs-message` verifier on one call:
it returns `true`, returns `false`, or throws. -/
inductive VerifyBehavior where
  | returnsTrue
  | returnsFalse
  | raises
deriving DecidableEq, Repr

/-- How the promise returned by `submitStar` settles (a promise settles at
most once; later `resolve`/`reject` calls are no-ops). -/
inductive SubmitOutcome where
  | resolvedBlock (b : Block)
  | rejectedStr (msg : String)
  | rejectedBlock (b : Block)
  | pending
deriving DecidableEq, Repr

structure SubmitResult where
  state : ChainState
  outcome : SubmitOutcome
  verifierInvoked : Bool
deriving DecidableEq, Repr

/-- The block body `\x7baddress, message, signature, star\x7d` built by both
`submitStar` variants, in decoded form (the codec is out of scope). -/
def starBData (address message signature star : String) : BData :=
  ⟨some address, "msg:" ++ message ++ ";sig:" ++ signature ++ ";star:" ++ star⟩

def srcExpiryMsg : String := "The 5 minute delay has been reached"

def srcSigErrMsg : String := "There was a error verifiyng your message."

def partExpiryMsg : String := "submitStar: more than five minutes have elapsed"

/-- The method `submitStar` of the named `src/blockchain.js`: parse the embedded time,
proceed only when `currentTime - timeOfSubmission < 300` (false for `NaN`),
verify (a thrown verifier error is swallowed, leaving `false`), then append
and `await validateChain()`: a valid chain resolves with the appended
block; an invalid chain leaves the validation promise, and hence this one,
pending forever. -/
def submitStarSrc (st : ChainState) (address message signature star : String)
    (currentTime : Int) (tNow : String) (verify : VerifyBehavior) : SubmitResult :=
  let timeOfSubmission := parseMsgTime message
  let proceed : Bool :=
    match timeOfSubmission with
    | some t => decide (currentTime - t < 300)
    | none => false
  if proceed then
    if verify = .returnsTrue then
      let res := addBlock st (newBlock (starBData address message signature star)) tNow
      match validateChainOutcome res.1.chain with
      | .resolvesTrue => ⟨res.1, .resolvedBlock res.2, true⟩
      | .neverSettles _ => ⟨res.1, .pending, true⟩
    else ⟨st, .rejectedStr srcSigErrMsg, true⟩
  else ⟨st, .rejectedStr srcExpiryMsg, false⟩

/-- The method `submitStar` of the unnamed variant: an elapsed time strictly over 300
rejects immediately (first settle wins) but execution continues, so the
verifier is invoked on every path; with the flag raised or the signature
unverified it rejects with the unappended block (a no-op after the expiry
rejection); otherwise it appends and resolves with the appended block,
calling `validateChain()` without awaiting or checking it. -/
def submitStarPart (st : ChainState) (address message signature star : String)
    (currentTime : Int) (tNow : String) (verify : VerifyBehavior) : SubmitResult :=
  let messageTime := parseMsgTime message
  let flagTimeElapsed : Bool :=
    match messageTime with
    | some t => decide (currentTime - t > 300)
    | none => false
  let blk := newBlock (starBData address message signature star)
  if flagTimeElapsed then ⟨st, .rejectedStr partExpiryMsg, true⟩
  else if verify = .returnsTrue then
    let res := addBlock st blk tNow
    ⟨res.1, .resolvedBlock res.2, true⟩
  else ⟨st, .rejectedBlock blk, true⟩

/-! ### `getStarsByWalletAddress`: the two variants -/

/-- Modelled from the spec (section 6): `getBData` decodes the stored body;
the codec is out of scope and bodies are carried decoded, so this is the
identity. -/
def getBData (b : Block) : BData := b.body

/-- The named variant: walk the chain, skip any height-0 block, and collect
the decoded payloads whose owner address strictly equals the query. -/
def getStarsSrc (chain : List Block) (address : String) : List BData :=
  chain.foldl
    (fun stars b =>
      if b.height = 0 then stars
      else if (getBData b).address = some address then stars ++ [getBData b]
      else stars)
    []

/-- The unnamed variant: walk the chain and collect every decoded payload
whose owner address strictly equals the query — no genesis skip. -/
def getStarsPart (chain : List Block) (address : String) : List BData :=
  chain.foldl
    (fun results b =>
      if (getBData b).address = some address then results ++ [getBData b]
      else results)
    []

/-- Whether the promise returned by `validateChain` is left pending. -/
def isNeverSettles : ValidateOutcome → Bool
  | .resolvesTrue => false
  | .neverSettles _ => true

/-- Length of the internal error log at the moment the walk aborted. -/
def outcomeLogLength : ValidateOutcome → Nat
  | .resolvesTrue => 0
  | .neverSettles l => l.length

/-- Corruption of the second and third blocks: both links are overwritten,
so the chain contains two distinct integrity violations. -/
def breakTwo (st : ChainState) : ChainState :=
  { st with
    chain :=
      match st.chain with
      | a :: b :: c :: r =>
        a :: { b with previousBlockHash := some "beef" } ::
          { c with previousBlockHash := some "dead" } :: r
      | l => l }

/-- A three-block store with two broken links. -/
def stBrokenTwo : ChainState :=
  breakTwo (mkBlockchain "100" [(⟨some "a", "s1"⟩, "200"), (⟨some "b", "s2"⟩, "300")])

/-- The spec's description of `all_blocks_by_address`: the decoded payloads
of exactly the non-genesis (nonzero-height) blocks whose decoded owner
equals the queried address, in chain order. -/
def specStarsByAddress (a : String) (c : List Block) : List BData :=
  (c.filter (fun b => decide (b.height ≠ 0 ∧ b.body.address = some a))).map Block.body

/-- Two blocks identical in `(height, time, previousBlockHash, body)` that
differ only in the stored `hash` field. -/
def blkA : Block :=
  { hash := some "zzz", height := 5, body := ⟨some "a", "x"⟩, time := "7",
    previousBlockHash := some "p" }

def blkB : Block := { blkA with hash := none }

/-! ### Helper lemmas about the reachable-state invariant -/

theorem Block.eta_hash (b : Block) (h : b.hash = none) : { b with hash := none } = b := by
  cases b
  simp_all

theorem prevEq_refl (x : Option String) : prevEq x (.ofHash x) = true := by
  cases x <;> simp [prevEq]

theorem tailHash_eq_lastHash (l : List Block) (a : Block) :
    tailHash (a :: l) = lastHash a.hash l := by
  induction l generalizing a with
  | nil => rfl
  | cons b r ih => exact ih b

theorem chainRec_append (l : List Block) (ph : Option String) (n : Int) (b : Block)
    (hrec : chainRec ph n l)
    (hprev : b.previousBlockHash = lastHash ph l)
    (hheight : b.height = n + l.length)
    (hhash : b.hash = some (recomputeHash b)) :
    chainRec ph n (l ++ [b]) := by
  induction l generalizing ph n with
  | nil =>
    refine ⟨hprev, ?_, hhash, trivial⟩
    simpa using hheight
  | cons a r ih =>
    obtain ⟨h1, h2, h3, h4⟩ := hrec
    refine ⟨h1, h2, h3, ih a.hash (n + 1) h4 hprev ?_⟩
    rw [hheight]
    simp only [List.length_cons]
    push_cast
    ring

theorem inv_addBlock (st : ChainState) (d : BData) (t : String) (h : Inv st) :
    Inv (addBlock st (newBlock d) t).1 := by
  obtain ⟨g, rest, hc, haddr, hgprev, hrec, hh⟩ := h
  have hlen : 1 ≤ st.chain.length := by rw [hc]; simp
  have hlenZ : (1 : Int) ≤ (st.chain.length : Int) := by exact_mod_cast hlen
  have hht : ¬ st.height = -1 := by omega
  refine ⟨g, rest ++ [(addBlock st (newBlock d) t).2], ?_, haddr, hgprev, ?_, ?_⟩
  · show st.chain ++ [(addBlock st (newBlock d) t).2] = _
    rw [hc]; rfl
  · show chainRec none 0 (st.chain ++ [(addBlock st (newBlock d) t).2])
    refine chainRec_append st.chain none 0 _ hrec ?_ ?_ ?_
    · show (if st.height = -1 then none else tailHash st.chain) = lastHash none st.chain
      rw [if_neg hht, hc, tailHash_eq_lastHash]
      rfl
    · show st.height + 1 = 0 + (st.chain.length : Int)
      omega
    · rfl
  · show st.height + 1 = ((st.chain ++ [(addBlock st (newBlock d) t).2]).length : Int) - 1
    simp only [List.length_append, List.length_cons, List.length_nil]
    push_cast
    omega

theorem inv_base (tGen : String) : Inv (addBlock emptyState (newBlock genesisBData) tGen).1 :=
  ⟨_, [], rfl, rfl, rfl, ⟨rfl, rfl, rfl, trivial⟩, rfl⟩

theorem inv_mkBlockchain (tGen : String) (appends : List (BData × String)) :
    Inv (mkBlockchain tGen appends) := by
  unfold mkBlockchain
  generalize hst : (addBlock emptyState (newBlock genesisBData) tGen).1 = st0
  have h0 : Inv st0 := hst ▸ inv_base tGen
  clear hst
  induction appends generalizing st0 with
  | nil => exact h0
  | cons p r ih => exact ih _ (inv_addBlock st0 p.1 p.2 h0)

theorem walkAux_tail (l : List Block) (ph : Option String) (n : Int) (acc : List String)
    (hn : 1 ≤ n) (hrec : chainRec ph n l) :
    walkAux (.ofHash ph) acc l = .completed acc := by
  induction l generalizing ph n with
  | nil => rfl
  | cons b r ih =>
    obtain ⟨hprev, hheight, hhash, hrest⟩ := hrec
    have hb : b.validate = true := by simp [Block.validate, hhash]
    have hne : ¬ b.height = 0 := by omega
    have hpe : prevEq b.previousBlockHash (.ofHash ph) = true := by
      rw [hprev]; exact prevEq_refl ph
    simp only [walkAux, hb, hne, if_false, hpe, if_true, Bool.true_eq_false]
    exact ih b.hash (n + 1) (by omega) hrest

theorem walkAux_of_inv (st : ChainState) (h : Inv st) :
    walkAux .init [] st.chain = .completed [] := by
  obtain ⟨g, rest, hc, -, -, hrec, -⟩ := h
  rw [hc] at hrec ⊢
  obtain ⟨-, hg0, hghash, hrest⟩ := hrec
  have hb : g.validate = true := by simp [Block.validate, hghash]
  have hstep : walkAux .init [] (g :: rest) = walkAux (.ofHash g.hash) [] rest := by
    simp [walkAux, hb, hg0]
  rw [hstep, walkAux_tail rest g.hash 1 [] (by omega) (by simpa using hrest)]

theorem walk_of_inv (st : ChainState) (h : Inv st) :
    validateChainOutcome st.chain = .resolvesTrue := by
  unfold validateChainOutcome
  rw [walkAux_of_inv st h]

theorem chainRec_prev_ne_none (l : List Block) (h0 : String) (n : Int)
    (hrec : chainRec (some h0) n l) : ∀ b ∈ l, b.previousBlockHash ≠ none := by
  induction l generalizing h0 n with
  | nil => intro b hb; cases hb
  | cons b r ih =>
    obtain ⟨hprev, -, hhash, hrest⟩ := hrec
    intro x hx
    rcases List.mem_cons.mp hx with rfl | hx
    · rw [hprev]; exact Option.some_ne_none h0
    · rw [hhash] at hrest
      exact ih (recomputeHash b) (n + 1) hrest x hx

theorem chainRec_get_link (l : List Block) (ph : Option String) (n : Int)
    (hrec : chainRec ph n l) :
    ∀ i (h : i + 1 < l.length),
      (l.get ⟨i + 1, h⟩).previousBlockHash = (l.get ⟨i, Nat.lt_of_succ_lt h⟩).hash := by
  induction l generalizing ph n with
  | nil => intro i h; simp at h
  | cons b r ih =>
    obtain ⟨-, -, -, hrest⟩ := hrec
    intro i h
    match i with
    | 0 =>
      cases r with
      | nil => simp at h
      | cons c r' => exact hrest.1
    | Nat.succ j =>
      exact ih b.hash (n + 1) hrest j (by simpa using h)

/-! ### Branch lemmas for the two `submitStar` variants -/

theorem src_expired (st : ChainState) (a msg sig star : String) (ct t : Int)
    (tNow : String) (v : VerifyBehavior)
    (hmsg : parseMsgTime msg = some t) (hge : ¬ ct - t < 300) :
    submitStarSrc st a msg sig star ct tNow v = ⟨st, .rejectedStr srcExpiryMsg, false⟩ := by
  have hd : decide (ct - t < 300) = false := decide_eq_false hge
  simp [submitStarSrc, hmsg, hd]

theorem src_sigfail (st : ChainState) (a msg sig star : String) (ct t : Int)
    (tNow : String) (v : VerifyBehavior)
    (hmsg : parseMsgTime msg = some t) (hlt : ct - t < 300) (hv : v ≠ .returnsTrue) :
    submitStarSrc st a msg sig star ct tNow v = ⟨st, .rejectedStr srcSigErrMsg, true⟩ := by
  have hd : decide (ct - t < 300) = true := decide_eq_true hlt
  simp [submitStarSrc, hmsg, hd, hv]

theorem src_success (st : ChainState) (a msg sig star : String) (ct t : Int)
    (tNow : String)
    (hmsg : parseMsgTime msg = some t) (hlt : ct - t < 300)
    (hval : validateChainOutcome
      (addBlock st (newBlock (starBData a msg sig star)) tNow).1.chain = .resolvesTrue) :
    submitStarSrc st a msg sig star ct tNow .returnsTrue =
      ⟨(addBlock st (newBlock (starBData a msg sig star)) tNow).1,
       .resolvedBlock (addBlock st (newBlock (starBData a msg sig star)) tNow).2, true⟩ := by
  have hd : decide (ct - t < 300) = true := decide_eq_true hlt
  simp [submitStarSrc, hmsg, hd, hval]

theorem src_pending (st : ChainState) (a msg sig star : String) (ct t : Int)
    (tNow : String) (l : List String)
    (hmsg : parseMsgTime msg = some t) (hlt : ct - t < 300)
    (hval : validateChainOutcome
      (addBlock st (newBlock (starBData a msg sig star)) tNow).1.chain = .neverSettles l) :
    submitStarSrc st a msg sig star ct tNow .returnsTrue =
      ⟨(addBlock st (newBlock (starBData a msg sig star)) tNow).1, .pending, true⟩ := by
  have hd : decide (ct - t < 300) = true := decide_eq_true hlt
  simp [submitStarSrc, hmsg, hd, hval]

theorem part_expired (st : ChainState) (a msg sig star : String) (ct t : Int)
    (tNow : String) (v : VerifyBehavior)
    (hmsg : parseMsgTime msg = some t) (hgt : ct - t > 300) :
    submitStarPart st a msg sig star ct tNow v = ⟨st, .rejectedStr partExpiryMsg, true⟩ := by
  have hflag : decide (ct - t > 300) = true := decide_eq_true hgt
  simp [submitStarPart, hmsg, hflag]

theorem part_inwindow_success (st : ChainState) (a msg sig star : String) (ct t : Int)
    (tNow : String)
    (hmsg : parseMsgTime msg = some t) (hngt : ¬ ct - t > 300) :
    submitStarPart st a msg sig star ct tNow .returnsTrue =
      ⟨(addBlock st (newBlock (starBData a msg sig star)) tNow).1,
       .resolvedBlock (addBlock st (newBlock (starBData a msg sig star)) tNow).2, true⟩ := by
  have hflag : decide (ct - t > 300) = false := decide_eq_false hngt
  simp [submitStarPart, hmsg, hflag]

theorem part_inwindow_sigfail (st : ChainState) (a msg sig star : String) (ct t : Int)
    (tNow : String) (v : VerifyBehavior)
    (hmsg : parseMsgTime msg = some t) (hngt : ¬ ct - t > 300) (hv : v ≠ .returnsTrue) :
    submitStarPart st a msg sig star ct tNow v =
      ⟨st, .rejectedBlock (newBlock (starBData a msg sig star)), true⟩ := by
  have hflag : decide (ct - t > 300) = false := decide_eq_false hngt
  simp [submitStarPart, hmsg, hflag, hv]

/-- C1: for every chain built only by `_addBlock` appends starting from the
synthesized genesis block, `validateChain` run right afterwards completes
its walk with an empty error log and resolves `true` — success with zero
violations.  (Every intermediate store is itself `mkBlockchain` of a prefix
of the append list, so quantifying over all append lists covers running
the validator immediately after each append.) -/
theorem claim1_append_only_chains_validate (tGen : String) (appends : List (BData × String)) :
    walkAux .init [] (mkBlockchain tGen appends).chain = .completed [] ∧
    validateChainOutcome (mkBlockchain tGen appends).chain = .resolvesTrue :=
  ⟨walkAux_of_inv _ (inv_mkBlockchain tGen appends),
   walk_of_inv _ (inv_mkBlockchain tGen appends)⟩

/-- C9: in every store reachable from construction via appends, the chain
starts with a genesis block of height 0 and `null` previous hash, the
genesis is the only block whose previous hash is the `null` sentinel, and
every later block's previous hash is exactly its predecessor's hash. -/
theorem claim9_genesis_link_invariant (tGen : String) (appends : List (BData × String)) :
    ∃ g rest, (mkBlockchain tGen appends).chain = g :: rest ∧
      g.height = 0 ∧ g.previousBlockHash = none ∧
      (∀ b ∈ rest, b.previousBlockHash ≠ none) ∧
      ∀ i (h : i + 1 < (mkBlockchain tGen appends).chain.length),
        ((mkBlockchain tGen appends).chain.get ⟨i + 1, h⟩).previousBlockHash =
          ((mkBlockchain tGen appends).chain.get ⟨i, Nat.lt_of_succ_lt h⟩).hash := by
  obtain ⟨g, rest, hc, -, hgprev, hrec, -⟩ := inv_mkBlockchain tGen appends
  have hrec' := hrec
  rw [hc] at hrec'
  obtain ⟨-, hg0, hghash, hrest⟩ := hrec'
  refine ⟨g, rest, hc, hg0, hgprev, ?_, ?_⟩
  · rw [hghash] at hrest
    exact chainRec_prev_ne_none rest (recomputeHash g) 1 (by simpa using hrest)
  · exact chainRec_get_link _ none 0 hrec

/-- Witness for C9 at a concrete two-block store. -/
theorem claim9_witness :
    ∃ g rest, (mkBlockchain "100" [(⟨some "a", "s1"⟩, "200")]).chain = g :: rest ∧
      g.height = 0 ∧ g.previousBlockHash = none ∧
      (∀ b ∈ rest, b.previousBlockHash ≠ none) ∧
      ∀ i (h : i + 1 < (mkBlockchain "100" [(⟨some "a", "s1"⟩, "200")]).chain.length),
        ((mkBlockchain "100" [(⟨some "a", "s1"⟩, "200")]).chain.get ⟨i + 1, h⟩).previousBlockHash =
          ((mkBlockchain "100" [(⟨some "a", "s1"⟩, "200")]).chain.get
            ⟨i, Nat.lt_of_succ_lt h⟩).hash :=
  claim9_genesis_link_invariant "100" [(⟨some "a", "s1"⟩, "200")]

/-- C2: evaluation of `validateChain` at a chain holding two broken links.
The claim says the walk continues past each violation and the promise
settles with the full ordered violation list; in the code, the first
violation's `errorLog.push` is followed by an assignment to the `const`
`ChainIsValid`, which throws, so the walk stops with only the first
violation recorded and the promise never settles (it neither resolves nor
rejects, with this log or any other). -/
theorem claim2_validator_aborts_on_first_violation :
    isNeverSettles (validateChainOutcome stBrokenTwo.chain) = true ∧
    outcomeLogLength (validateChainOutcome stBrokenTwo.chain) = 1 ∧
    stBrokenTwo.chain.length = 3 := by decide

/-- C10: the block digest is a pure function of
`(height, timestamp, previous_hash, body)` — the stored `hash` field never
influences it — and the hash `_addBlock` assigns is exactly that digest of
the appended block, for every block whose `hash` slot is unset at hashing
time (which holds for every block the program passes to `_addBlock`, since
both call sites hash a freshly constructed block). -/
theorem claim10_hash_pure_function :
    (∀ b b' : Block, b.height = b'.height → b.time = b'.time →
      b.previousBlockHash = b'.previousBlockHash → b.body = b'.body →
      recomputeHash b = recomputeHash b') ∧
    (∀ (st : ChainState) (b : Block) (t : String), b.hash = none →
      ((addBlock st b t).2).hash = some (recomputeHash (addBlock st b t).2)) := by
  constructor
  · intro b b' h1 h2 h3 h4
    cases b
    cases b'
    simp_all [recomputeHash, serializeBlock, serializeBData]
  · intro st b t h
    show some (SHA256String (serializeBlock _)) = some (recomputeHash _)
    unfold recomputeHash
    congr 2
    cases b
    simp_all [addBlock]

/-- Witness for C10: two concrete blocks agreeing on everything but the
stored `hash` field digest identically, and a concrete append stores the
recomputable digest. -/
theorem claim10_witness :
    recomputeHash blkA = recomputeHash blkB ∧
    ((addBlock emptyState (newBlock genesisBData) "9").2).hash =
      some (recomputeHash (addBlock emptyState (newBlock genesisBData) "9").2) :=
  ⟨claim10_hash_pure_function.1 blkA blkB rfl rfl rfl rfl,
   claim10_hash_pure_function.2 emptyState (newBlock genesisBData) "9" rfl⟩

/-- C3 (counterexample): a timing- and signature-passing submission on a
store whose chain already holds a broken link.  The post-append validation
walk aborts (the validator's promise never settles), yet the `Src` variant
reports nothing at all (its promise stays pending, never a failure carrying
the error log) and the `Part` variant reports plain success with the
appended block, contradicting the claim that `submitStar` reports failure
with the validator's error log whenever the validator finds violations. -/
theorem claim3_counterexample :
    isNeverSettles (validateChainOutcome
      (addBlock stBroken (newBlock (starBData "a" "a:1000:starRegistry" "sg" "st"))
        "1000").1.chain) = true ∧
    (submitStarSrc stBroken "a" "a:1000:starRegistry" "sg" "st" 1000 "1000"
      .returnsTrue).outcome = .pending ∧
    (submitStarPart stBroken "a" "a:1000:starRegistry" "sg" "st" 1000 "1000"
      .returnsTrue).outcome
      = .resolvedBlock
          ((addBlock stBroken (newBlock (starBData "a" "a:1000:starRegistry" "sg" "st"))
            "1000").2) := by decide

/-- C3 (amended): after a submission passes the timing and signature
checks, both variants append the block, which stays in the chain.  The
`Src` variant then awaits the validator: if the validator resolves `true`,
`submitStar` resolves with the appended block; if the validator's walk
aborts (any violation), its promise never settles and `submitStar` stays
pending — it never rejects with the validator's error log.  The `Part`
variant fires the validator without awaiting it and always resolves with
the appended block. -/
theorem claim3_amended_post_append_validation
    (st : ChainState) (a msg sig star : String) (ct t : Int) (tNow : String)
    (hmsg : parseMsgTime msg = some t) (ht : ct - t < 300) :
    (validateChainOutcome (addBlock st (newBlock (starBData a msg sig star)) tNow).1.chain
        = .resolvesTrue →
      submitStarSrc st a msg sig star ct tNow .returnsTrue =
        ⟨(addBlock st (newBlock (starBData a msg sig star)) tNow).1,
         .resolvedBlock (addBlock st (newBlock (starBData a msg sig star)) tNow).2, true⟩) ∧
    (isNeverSettles (validateChainOutcome
        (addBlock st (newBlock (starBData a msg sig star)) tNow).1.chain) = true →
      submitStarSrc st a msg sig star ct tNow .returnsTrue =
        ⟨(addBlock st (newBlock (starBData a msg sig star)) tNow).1, .pending, true⟩) ∧
    submitStarPart st a msg sig star ct tNow .returnsTrue =
      ⟨(addBlock st (newBlock (starBData a msg sig star)) tNow).1,
       .resolvedBlock (addBlock st (newBlock (starBData a msg sig star)) tNow).2, true⟩ := by
  refine ⟨fun hv => src_success st a msg sig star ct t tNow hmsg ht hv, ?_,
    part_inwindow_success st a msg sig star ct t tNow hmsg (by omega)⟩
  intro hv
  rcases hout : validateChainOutcome
      (addBlock st (newBlock (starBData a msg sig star)) tNow).1.chain with - | l
  · rw [hout] at hv
    simp [isNeverSettles] at hv
  · exact src_pending st a msg sig star ct t tNow l hmsg ht hout

/-- Witness for C3's amended statement at a concrete in-window verified
submission. -/
theorem claim3_witness :
    parseMsgTime "a:1000:starRegistry" = some 1000 ∧ ((1000 : Int) - 1000 < 300) ∧
    submitStarPart stGenesis "a" "a:1000:starRegistry" "sg" "st" 1000 "1000" .returnsTrue =
      ⟨(addBlock stGenesis (newBlock (starBData "a" "a:1000:starRegistry" "sg" "st"))
         "1000").1,
       .resolvedBlock
         (addBlock stGenesis (newBlock (starBData "a" "a:1000:starRegistry" "sg" "st"))
           "1000").2, true⟩ :=
  ⟨by decide, by decide,
   (claim3_amended_post_append_validation stGenesis "a" "a:1000:starRegistry" "sg" "st"
     1000 1000 "1000" (by decide) (by decide)).2.2⟩

/-- C4 (counterexample): the message `a:xx:starRegistry` has an unparseable
second field (`parseInt` gives `NaN`).  The claim says such a submission is
rejected with a `MalformedChallenge` error distinguishable from
`ChallengeExpired`, without verifying or appending.  Instead, the `Src`
variant rejects with the very same string it uses for expired submissions,
and the `Part` variant invokes the verifier and (here, with a verifying
signature) appends a block and resolves with it. -/
theorem claim4_counterexample :
    parseMsgTime "a:xx:starRegistry" = none ∧
    (submitStarSrc stGenesis "a" "a:xx:starRegistry" "sg" "st" 1000 "1000"
      .returnsFalse).outcome = .rejectedStr srcExpiryMsg ∧
    (submitStarPart stGenesis "a" "a:xx:starRegistry" "sg" "st" 1000 "1000"
      .returnsTrue).verifierInvoked = true ∧
    (submitStarPart stGenesis "a" "a:xx:starRegistry" "sg" "st" 1000 "1000"
      .returnsTrue).state.chain.length = 2 := by decide

/-- C4 (amended): an unparseable embedded timestamp yields `NaN`, and every
comparison with `NaN` is false.  The `Src` variant therefore takes its
expiry branch — rejecting with the same `ChallengeExpired` string, without
invoking the verifier and without touching the store — while the `Part`
variant treats the submission as in-window: it always invokes the
verifier, appends and resolves with the block when the signature verifies,
and rejects with the unappended block (store untouched) otherwise.
Neither variant has a distinct `MalformedChallenge` rejection. -/
theorem claim4_amended_nan_timing
    (st : ChainState) (a msg sig star : String) (ct : Int) (tNow : String)
    (v : VerifyBehavior) (hmsg : parseMsgTime msg = none) :
    submitStarSrc st a msg sig star ct tNow v = ⟨st, .rejectedStr srcExpiryMsg, false⟩ ∧
    (submitStarPart st a msg sig star ct tNow v).verifierInvoked = true ∧
    (v = .returnsTrue →
      submitStarPart st a msg sig star ct tNow v =
        ⟨(addBlock st (newBlock (starBData a msg sig star)) tNow).1,
         .resolvedBlock (addBlock st (newBlock (starBData a msg sig star)) tNow).2, true⟩) ∧
    (v ≠ .returnsTrue →
      submitStarPart st a msg sig star ct tNow v =
        ⟨st, .rejectedBlock (newBlock (starBData a msg sig star)), true⟩) := by
  refine ⟨by simp [submitStarSrc, hmsg], ?_, ?_, ?_⟩
  · by_cases hv : v = .returnsTrue <;> simp [submitStarPart, hmsg, hv]
  · intro hv
    simp [submitStarPart, hmsg, hv]
  · intro hv
    simp [submitStarPart, hmsg, hv]

/-- Witness for C4's amended statement on a message with no colons at
all (`split(':')[1]` is `undefined`, `parseInt(undefined)` is `NaN`). -/
theorem claim4_witness :
    parseMsgTime "nocolons" = none ∧
    submitStarSrc stGenesis "a" "nocolons" "sg" "st" 1000 "1000" .raises =
      ⟨stGenesis, .rejectedStr srcExpiryMsg, false⟩ ∧
    submitStarPart stGenesis "a" "nocolons" "sg" "st" 1000 "1000" .raises =
      ⟨stGenesis, .rejectedBlock (newBlock (starBData "a" "nocolons" "sg" "st")), true⟩ :=
  ⟨by decide,
   (claim4_amended_nan_timing stGenesis "a" "nocolons" "sg" "st" 1000 "1000" .raises
     (by decide)).1,
   (claim4_amended_nan_timing stGenesis "a" "nocolons" "sg" "st" 1000 "1000" .raises
     (by decide)).2.2.2 (by decide)⟩

/-- C5 (counterexample): at an elapsed time of exactly 300 seconds — which
does not exceed 300 — with a verifying signature on a freshly built store,
the `Src` variant still rejects the submission as expired (its guard is
`elapsed < 300` to proceed, i.e. it rejects at `elapsed ≥ 300`, not only
strictly above 300 as the claim states). -/
theorem claim5_counterexample :
    ¬ ((1300 : Int) - 1000 > 300) ∧
    parseMsgTime "a:1000:starRegistry" = some 1000 ∧
    (submitStarSrc stGenesis "a" "a:1000:starRegistry" "sg" "st" 1300 "1300"
      .returnsTrue).outcome = .rejectedStr srcExpiryMsg := by decide

/-- C5 (amended): for a well-formed embedded timestamp `t` on a store built
by the program, the `Part` variant rejects as expired exactly when
`elapsed > 300` while the `Src` variant rejects as expired exactly when
`elapsed ≥ 300`; in particular at 299 seconds elapsed a verified
submission succeeds in both variants, at 300 seconds `Src` rejects while
`Part` does not treat it as expired, and at 301 seconds both reject as
expired regardless of the verifier's behaviour. -/
theorem claim5_amended_expiry_window
    (tGen : String) (appends : List (BData × String)) (a msg sig star : String)
    (ct t : Int) (tNow : String) (hmsg : parseMsgTime msg = some t) :
    (ct - t > 300 → ∀ v,
      submitStarSrc (mkBlockchain tGen appends) a msg sig star ct tNow v =
        ⟨mkBlockchain tGen appends, .rejectedStr srcExpiryMsg, false⟩ ∧
      submitStarPart (mkBlockchain tGen appends) a msg sig star ct tNow v =
        ⟨mkBlockchain tGen appends, .rejectedStr partExpiryMsg, true⟩) ∧
    (ct - t < 300 → ∀ v,
      (submitStarSrc (mkBlockchain tGen appends) a msg sig star ct tNow v).outcome ≠
        .rejectedStr srcExpiryMsg ∧
      (submitStarPart (mkBlockchain tGen appends) a msg sig star ct tNow v).outcome ≠
        .rejectedStr partExpiryMsg) ∧
    (ct - t = 300 → ∀ v,
      (submitStarSrc (mkBlockchain tGen appends) a msg sig star ct tNow v).outcome =
        .rejectedStr srcExpiryMsg ∧
      (submitStarPart (mkBlockchain tGen appends) a msg sig star ct tNow v).outcome ≠
        .rejectedStr partExpiryMsg) ∧
    (ct - t = 299 →
      submitStarSrc (mkBlockchain tGen appends) a msg sig star ct tNow .returnsTrue =
        ⟨(addBlock (mkBlockchain tGen appends)
            (newBlock (starBData a msg sig star)) tNow).1,
         .resolvedBlock (addBlock (mkBlockchain tGen appends)
            (newBlock (starBData a msg sig star)) tNow).2, true⟩ ∧
      submitStarPart (mkBlockchain tGen appends) a msg sig star ct tNow .returnsTrue =
        ⟨(addBlock (mkBlockchain tGen appends)
            (newBlock (starBData a msg sig star)) tNow).1,
         .resolvedBlock (addBlock (mkBlockchain tGen appends)
            (newBlock (starBData a msg sig star)) tNow).2, true⟩) ∧
    (ct - t = 301 → ∀ v,
      (submitStarSrc (mkBlockchain tGen appends) a msg sig star ct tNow v).outcome =
        .rejectedStr srcExpiryMsg ∧
      (submitStarPart (mkBlockchain tGen appends) a msg sig star ct tNow v).outcome =
        .rejectedStr partExpiryMsg) := by
  refine ⟨?_, ?_, ?_, ?_, ?_⟩
  · intro hgt v
    exact ⟨src_expired _ a msg sig star ct t tNow v hmsg (by omega),
           part_expired _ a msg sig star ct t tNow v hmsg hgt⟩
  · intro hlt v
    constructor
    · cases v with
      | returnsTrue =>
        rcases hout : validateChainOutcome
            (addBlock (mkBlockchain tGen appends)
              (newBlock (starBData a msg sig star)) tNow).1.chain with - | l
        · rw [src_success _ a msg sig star ct t tNow hmsg hlt hout]
          simp [srcSigErrMsg, srcExpiryMsg, partExpiryMsg]
        · rw [src_pending _ a msg sig star ct t tNow l hmsg hlt hout]
          simp [srcSigErrMsg, srcExpiryMsg, partExpiryMsg]
      | returnsFalse =>
        rw [src_sigfail _ a msg sig star ct t tNow _ hmsg hlt (by decide)]
        simp [srcSigErrMsg, srcExpiryMsg, partExpiryMsg]
      | raises =>
        rw [src_sigfail _ a msg sig star ct t tNow _ hmsg hlt (by decide)]
        simp [srcSigErrMsg, srcExpiryMsg, partExpiryMsg]
    · cases v with
      | returnsTrue =>
        rw [part_inwindow_success _ a msg sig star ct t tNow hmsg (by omega)]
        simp [srcSigErrMsg, srcExpiryMsg, partExpiryMsg]
      | returnsFalse =>
        rw [part_inwindow_sigfail _ a msg sig star ct t tNow _ hmsg (by omega) (by decide)]
        simp [srcSigErrMsg, srcExpiryMsg, partExpiryMsg]
      | raises =>
        rw [part_inwindow_sigfail _ a msg sig star ct t tNow _ hmsg (by omega) (by decide)]
        simp [srcSigErrMsg, srcExpiryMsg, partExpiryMsg]
  · intro heq v
    constructor
    · rw [src_expired _ a msg sig star ct t tNow v hmsg (by omega)]
    · cases v with
      | returnsTrue =>
        rw [part_inwindow_success _ a msg sig star ct t tNow hmsg (by omega)]
        simp [srcSigErrMsg, srcExpiryMsg, partExpiryMsg]
      | returnsFalse =>
        rw [part_inwindow_sigfail _ a msg sig star ct t tNow _ hmsg (by omega) (by decide)]
        simp [srcSigErrMsg, srcExpiryMsg, partExpiryMsg]
      | raises =>
        rw [part_inwindow_sigfail _ a msg sig star ct t tNow _ hmsg (by omega) (by decide)]
        simp [srcSigErrMsg, srcExpiryMsg, partExpiryMsg]
  · intro heq
    have hval : validateChainOutcome
        (addBlock (mkBlockchain tGen appends)
          (newBlock (starBData a msg sig star)) tNow).1.chain = .resolvesTrue :=
      walk_of_inv _ (inv_addBlock (mkBlockchain tGen appends) _ tNow
        (inv_mkBlockchain tGen appends))
    exact ⟨src_success _ a msg sig star ct t tNow hmsg (by omega) hval,
           part_inwindow_success _ a msg sig star ct t tNow hmsg (by omega)⟩
  · intro heq v
    refine ⟨?_, ?_⟩
    · rw [src_expired _ a msg sig star ct t tNow v hmsg (by omega)]
    · rw [part_expired _ a msg sig star ct t tNow v hmsg (by omega)]

/-- Witness for C5's amended statement: a verified submission at 299
seconds elapsed succeeds in both variants. -/
theorem claim5_witness :
    parseMsgTime "a:1000:starRegistry" = some 1000 ∧
    submitStarSrc (mkBlockchain "100" []) "a" "a:1000:starRegistry" "sg" "st" 1299 "1299"
        .returnsTrue =
      ⟨(addBlock (mkBlockchain "100" [])
          (newBlock (starBData "a" "a:1000:starRegistry" "sg" "st")) "1299").1,
       .resolvedBlock (addBlock (mkBlockchain "100" [])
          (newBlock (starBData "a" "a:1000:starRegistry" "sg" "st")) "1299").2, true⟩ :=
  ⟨by decide,
   ((claim5_amended_expiry_window "100" [] "a" "a:1000:starRegistry" "sg" "st" 1299 1000
      "1299" (by decide)).2.2.2.1 (by decide)).1⟩

/-- C6 (counterexample): on an expired submission the `Part` variant still
invokes the signature-verification service after having rejected, contrary
to the claim that the timing check short-circuits without invoking it. -/
theorem claim6_counterexample :
    ((1400 : Int) - 1000 > 300) ∧
    (submitStarPart stGenesis "a" "a:1000:starRegistry" "sg" "st" 1400 "1400"
      .raises).verifierInvoked = true := by decide

/-- C6 (amended): on an expired submission (elapsed strictly over 300) both
variants settle on the expiry rejection with the store untouched, and the
outcome is the same for every verifier behaviour (`true`, `false`, or a
raise); the `Src` variant never invokes the verifier, while the `Part`
variant rejects first but still invokes it afterwards. -/
theorem claim6_amended_expired_short_circuit
    (st : ChainState) (a msg sig star : String) (ct t : Int) (tNow : String)
    (v : VerifyBehavior) (hmsg : parseMsgTime msg = some t) (hgt : ct - t > 300) :
    submitStarSrc st a msg sig star ct tNow v = ⟨st, .rejectedStr srcExpiryMsg, false⟩ ∧
    submitStarPart st a msg sig star ct tNow v = ⟨st, .rejectedStr partExpiryMsg, true⟩ :=
  ⟨src_expired st a msg sig star ct t tNow v hmsg (by omega),
   part_expired st a msg sig star ct t tNow v hmsg hgt⟩

/-- Witness for C6's amended statement at a concrete expired submission
with a raising verifier. -/
theorem claim6_witness :
    submitStarSrc stGenesis "a" "a:1000:starRegistry" "sg" "st" 1400 "1400" .raises =
      ⟨stGenesis, .rejectedStr srcExpiryMsg, false⟩ ∧
    submitStarPart stGenesis "a" "a:1000:starRegistry" "sg" "st" 1400 "1400" .raises =
      ⟨stGenesis, .rejectedStr partExpiryMsg, true⟩ :=
  claim6_amended_expired_short_circuit stGenesis "a" "a:1000:starRegistry" "sg" "st"
    1400 1000 "1400" .raises (by decide) (by decide)

/-- C7: a submission that passes the respective variant's timing check but
whose signature the verifier reports invalid (returns `false` or raises)
is rejected — with the signature-failure rejection, distinct from the
expiry rejection — and the store is left unchanged: the returned state is
exactly the input state, chain sequence and height counter included. -/
theorem claim7_sig_invalid_no_mutation
    (st : ChainState) (a msg sig star : String) (ct t : Int) (tNow : String)
    (v : VerifyBehavior) (hmsg : parseMsgTime msg = some t) (hv : v ≠ .returnsTrue) :
    (ct - t < 300 →
      submitStarSrc st a msg sig star ct tNow v = ⟨st, .rejectedStr srcSigErrMsg, true⟩ ∧
      srcSigErrMsg ≠ srcExpiryMsg) ∧
    (¬ ct - t > 300 →
      submitStarPart st a msg sig star ct tNow v =
        ⟨st, .rejectedBlock (newBlock (starBData a msg sig star)), true⟩ ∧
      ∀ m, SubmitOutcome.rejectedBlock (newBlock (starBData a msg sig star)) ≠
        .rejectedStr m) :=
  ⟨fun hlt => ⟨src_sigfail st a msg sig star ct t tNow v hmsg hlt hv, by decide⟩,
   fun hn => ⟨part_inwindow_sigfail st a msg sig star ct t tNow v hmsg hn hv,
              fun m h => by cases h⟩⟩

/-- Witness for C7 at a concrete in-window submission whose verifier
returns `false`: both variants reject and neither touches the store. -/
theorem claim7_witness :
    submitStarSrc stGenesis "a" "a:1000:starRegistry" "sg" "st" 1100 "1100" .returnsFalse =
      ⟨stGenesis, .rejectedStr srcSigErrMsg, true⟩ ∧
    submitStarPart stGenesis "a" "a:1000:starRegistry" "sg" "st" 1100 "1100" .returnsFalse =
      ⟨stGenesis, .rejectedBlock (newBlock (starBData "a" "a:1000:starRegistry" "sg" "st")),
       true⟩ :=
  ⟨((claim7_sig_invalid_no_mutation stGenesis "a" "a:1000:starRegistry" "sg" "st" 1100 1000
      "1100" .returnsFalse (by decide) (by decide)).1 (by decide)).1,
   ((claim7_sig_invalid_no_mutation stGenesis "a" "a:1000:starRegistry" "sg" "st" 1100 1000
      "1100" .returnsFalse (by decide) (by decide)).2 (by decide)).1⟩

/-! ### Lemmas for `getStarsByWalletAddress` -/

theorem chainRec_height_ge (l : List Block) (ph : Option String) (n : Int)
    (hrec : chainRec ph n l) : ∀ b ∈ l, n ≤ b.height := by
  induction l generalizing ph n with
  | nil => intro b hb; cases hb
  | cons b r ih =>
    obtain ⟨-, hh, -, hrest⟩ := hrec
    intro x hx
    rcases List.mem_cons.mp hx with rfl | hx
    · omega
    · have := ih b.hash (n + 1) hrest x hx
      omega

theorem chainRec_pairwise (l : List Block) (ph : Option String) (n : Int)
    (hrec : chainRec ph n l) : l.Pairwise (fun x y => x.height < y.height) := by
  induction l generalizing ph n with
  | nil => exact List.Pairwise.nil
  | cons b r ih =>
    obtain ⟨-, hh, -, hrest⟩ := hrec
    refine List.Pairwise.cons ?_ (ih b.hash (n + 1) hrest)
    intro y hy
    have := chainRec_height_ge r b.hash (n + 1) hrest y hy
    omega

theorem getStarsSrc_foldl (a : String) (c : List Block) (acc : List BData) :
    c.foldl
      (fun stars b =>
        if b.height = 0 then stars
        else if (getBData b).address = some a then stars ++ [getBData b]
        else stars) acc
    = acc ++
      (c.filter (fun b => decide (b.height ≠ 0 ∧ b.body.address = some a))).map Block.body := by
  induction c generalizing acc with
  | nil => simp
  | cons b r ih =>
    simp only [List.foldl_cons, List.filter_cons]
    by_cases h0 : b.height = 0
    · have hp : (decide (b.height ≠ 0 ∧ b.body.address = some a)) = false := by simp [h0]
      rw [if_pos h0, hp, ih]
      simp
    · by_cases ha : (getBData b).address = some a
      · have ha2 : b.body.address = some a := ha
        have hp : (decide (b.height ≠ 0 ∧ b.body.address = some a)) = true := by
          simp [h0, ha2]
        rw [if_neg h0, if_pos ha, hp, ih]
        simp [getBData]
      · have ha2 : ¬ b.body.address = some a := ha
        have hp : (decide (b.height ≠ 0 ∧ b.body.address = some a)) = false := by
          simp [h0, ha2]
        rw [if_neg h0, if_neg ha, hp, ih]
        simp

theorem getStarsPart_foldl (a : String) (c : List Block) (acc : List BData) :
    c.foldl
      (fun results b =>
        if (getBData b).address = some a then results ++ [getBData b]
        else results) acc
    = acc ++ (c.filter (fun b => decide (b.body.address = some a))).map Block.body := by
  induction c generalizing acc with
  | nil => simp
  | cons b r ih =>
    simp only [List.foldl_cons, List.filter_cons]
    by_cases ha : (getBData b).address = some a
    · have ha2 : b.body.address = some a := ha
      have hp : (decide (b.body.address = some a)) = true := by simp [ha2]
      rw [if_pos ha, hp, ih]
      simp [getBData]
    · have ha2 : ¬ b.body.address = some a := ha
      have hp : (decide (b.body.address = some a)) = false := by simp [ha2]
      rw [if_neg ha, hp, ih]
      simp

/-- C8 (counterexample): the unnamed variant has no genesis skip — a
height-0 block at the genesis position whose decoded owner matches the
queried address is returned, contradicting the claim that the genesis
block is never included regardless of its owner field.  (The named
variant does skip every height-0 block.) -/
theorem claim8_counterexample :
    gOwned.height = 0 ∧ gOwned.previousBlockHash = none ∧
    getStarsPart [gOwned] "a" = [gOwned.body] ∧
    getStarsSrc [gOwned] "a" = [] := by decide

/-- C8 (amended): on every store the program can build, both variants
resolve with exactly the decoded payloads of the non-genesis blocks whose
decoded owner equals the queried address, in ascending height order (the
chain's heights strictly increase and results follow chain order); every
returned payload carries the queried owner, and the genesis payload
(owner-less) is never among them.  The two variants agree on reachable
stores only because the reachable genesis has no owner: the unnamed
variant filters solely on the owner match and would include a height-0
block whose owner matched. -/
theorem claim8_amended_stars_by_address (tGen : String) (appends : List (BData × String))
    (a : String) :
    getStarsSrc (mkBlockchain tGen appends).chain a =
      specStarsByAddress a (mkBlockchain tGen appends).chain ∧
    getStarsPart (mkBlockchain tGen appends).chain a =
      specStarsByAddress a (mkBlockchain tGen appends).chain ∧
    (∀ d ∈ getStarsSrc (mkBlockchain tGen appends).chain a, d.address = some a) ∧
    (mkBlockchain tGen appends).chain.Pairwise (fun x y => x.height < y.height) := by
  obtain ⟨g, rest, hc, haddr, -, hrec, -⟩ := inv_mkBlockchain tGen appends
  have hrec' := hrec
  rw [hc] at hrec'
  obtain ⟨-, hg0, -, hrest⟩ := hrec'
  have hsrc : getStarsSrc (mkBlockchain tGen appends).chain a =
      specStarsByAddress a (mkBlockchain tGen appends).chain := by
    simpa [getStarsSrc, specStarsByAddress] using
      getStarsSrc_foldl a (mkBlockchain tGen appends).chain []
  have hagree : ∀ b ∈ (mkBlockchain tGen appends).chain,
      (decide (b.body.address = some a))
        = (decide (b.height ≠ 0 ∧ b.body.address = some a)) := by
    rw [hc]
    intro b hb
    rcases List.mem_cons.mp hb with rfl | hb
    · simp [haddr, hg0]
    · have h1 := chainRec_height_ge rest g.hash (0 + 1) hrest b hb
      have hne : b.height ≠ 0 := by omega
      simp [hne]
  refine ⟨hsrc, ?_, ?_, chainRec_pairwise _ none 0 hrec⟩
  · have hpart : getStarsPart (mkBlockchain tGen appends).chain a =
        ((mkBlockchain tGen appends).chain.filter
          (fun b => decide (b.body.address = some a))).map Block.body := by
      simpa [getStarsPart] using getStarsPart_foldl a (mkBlockchain tGen appends).chain []
    rw [hpart, specStarsByAddress, List.filter_congr hagree]
  · intro d hd
    rw [hsrc] at hd
    obtain ⟨b, hb, rfl⟩ := List.mem_map.mp hd
    have hp := (List.mem_filter.mp hb).2
    simp only [decide_eq_true_eq] at hp
    exact hp.2

/-- Witness for C8's amended statement at a concrete two-block store. -/
theorem claim8_witness :
    getStarsSrc stTwo.chain "a" = specStarsByAddress "a" stTwo.chain ∧
    getStarsPart stTwo.chain "a" = specStarsByAddress "a" stTwo.chain ∧
    (∀ d ∈ getStarsSrc stTwo.chain "a", d.address = some "a") ∧
    stTwo.chain.Pairwise (fun x y => x.height < y.height) :=
  claim8_amended_stars_by_address "100" [(⟨some "a", "s1"⟩, "200")] "a"

end UdacityTp1
